import Mathlib

/-!
Verification model of the resume intake and scoring pipeline
(`backend/main.py`, `backend/tasks/resume_tasks.py`,
`backend/services/gpt_service.py`).

Python strings are modelled as Lean `String`s over their character lists;
Python string methods (`strip`, `lower`, `upper`, `title`, `capitalize`,
`split`) and the character classes of the regular expressions used by the
code (`[a-zA-Z]`, `\s`, `\d`, ...) are modelled at ASCII fidelity, which is
the character range the patterns in the source are written for.
External effects (the OpenAI call, `json.loads`, file I/O, Firestore, S3)
are modelled as explicit inputs: each such interaction is a parameter or an
oracle field carrying the outcome the collaborator produced, and the code
translated here is everything the repository does with those outcomes.
-/

/-- Code point of a character, as a natural number. -/
def cp (c : Char) : Nat := c.toNat

/-- Model of the regex class `[A-Z]` and of `str.isupper` per character (ASCII). -/
def isUp (c : Char) : Bool := decide (65 ≤ cp c ∧ cp c ≤ 90)

/-- Model of the regex class `[a-z]` (ASCII). -/
def isLo (c : Char) : Bool := decide (97 ≤ cp c ∧ cp c ≤ 122)

/-- Model of `[a-zA-Z]` / per-character `str.isalpha` (ASCII). -/
def isAl (c : Char) : Bool := isUp c || isLo c

/-- Model of `[0-9]` / regex `\d` (ASCII). -/
def isDig (c : Char) : Bool := decide (48 ≤ cp c ∧ cp c ≤ 57)

/-- Model of regex `\s` and of the whitespace stripped by `str.strip()`:
space, tab, newline, carriage return, vertical tab, form feed (ASCII). -/
def pyWs (c : Char) : Bool :=
  decide (cp c = 32 ∨ cp c = 9 ∨ cp c = 10 ∨ cp c = 13 ∨ cp c = 11 ∨ cp c = 12)

/-- ASCII lower-casing of one character, as done by `str.lower()`. -/
def pyLowerChar (c : Char) : Char :=
  if h : 65 ≤ cp c ∧ cp c ≤ 90 then
    Char.ofNatAux (cp c + 32) (Or.inl (by omega))
  else c

/-- ASCII upper-casing of one character, as done by `str.upper()`. -/
def pyUpperChar (c : Char) : Char :=
  if h : 97 ≤ cp c ∧ cp c ≤ 122 then
    Char.ofNatAux (cp c - 32) (Or.inl (by omega))
  else c

/-- Drop leading and trailing whitespace: model of `str.strip()`. -/
def pyStripL (l : List Char) : List Char :=
  ((l.dropWhile pyWs).reverse.dropWhile pyWs).reverse

/-- Model of `str.title()` (ASCII): an alphabetic character is upper-cased
when the previous character was not alphabetic and lower-cased otherwise.
The flag records whether the previous character was alphabetic (cased). -/
def titleAux (b : Bool) : List Char → List Char
  | [] => []
  | c :: cs =>
    if isAl c then (if b then pyLowerChar c else pyUpperChar c) :: titleAux true cs
    else c :: titleAux false cs

/-- Model of `str.capitalize()` (ASCII): first character upper-cased, rest lower-cased. -/
def pyCapitalizeL : List Char → List Char
  | [] => []
  | c :: cs => pyUpperChar c :: cs.map pyLowerChar

/-- Model of `text.split('\n')`: split at every newline, keeping empty pieces. -/
def splitNlAux : List Char → List Char → List (List Char)
  | [], acc => [acc.reverse]
  | c :: cs, acc =>
    if c = '\n' then acc.reverse :: splitNlAux cs [] else splitNlAux cs (c :: acc)

/-- Model of `str.split()` with no argument: split on runs of whitespace,
discarding empty tokens. -/
def splitWsAux : List Char → List Char → List (List Char)
  | [], acc => if acc.isEmpty then [] else [acc.reverse]
  | c :: cs, acc =>
    if pyWs c then
      (if acc.isEmpty then splitWsAux cs [] else acc.reverse :: splitWsAux cs [])
    else splitWsAux cs (c :: acc)

/-- Does the list start with the given pattern? -/
def startsWith2 : List Char → List Char → Bool
  | [], _ => true
  | _ :: _, [] => false
  | p :: ps, c :: cs => p = c && startsWith2 ps cs

/-- Substring containment: model of the Python expression `pat in s` on strings. -/
def containsSubL : List Char → List Char → Bool
  | pat, [] => pat.isEmpty
  | pat, c :: cs => startsWith2 pat (c :: cs) || containsSubL pat cs

/-- Split at the first occurrence of a character: `some (before, after)`,
or `none` when the character does not occur. Model of `s.split(t, 1)`. -/
def splitAtFirst (t : Char) : List Char → Option (List Char × List Char)
  | [] => none
  | c :: cs =>
    if c = t then some ([], cs)
    else
      match splitAtFirst t cs with
      | none => none
      | some (a, b) => some (c :: a, b)

/-- Split at the last occurrence of a character. -/
def splitAtLast (t : Char) (l : List Char) : Option (List Char × List Char) :=
  match splitAtFirst t l.reverse with
  | none => none
  | some (a, b) => some (b.reverse, a.reverse)

/-- `str.strip()` on strings. -/
def pyStrip (s : String) : String := String.mk (pyStripL s.data)

/-- `str.lower()` on strings. -/
def pyLower (s : String) : String := String.mk (s.data.map pyLowerChar)

/-- `str.title()` on strings. -/
def pyTitle (s : String) : String := String.mk (titleAux false s.data)

/-- `str.capitalize()` on strings. -/
def pyCapitalize (s : String) : String := String.mk (pyCapitalizeL s.data)

/-- `text.split('\n')` on strings. -/
def pySplitNl (s : String) : List String := (splitNlAux s.data []).map String.mk

/-- `str.split()` on strings. -/
def pySplitWs (s : String) : List String := (splitWsAux s.data []).map String.mk

/-- `pat in s` on strings. -/
def containsSub (pat s : String) : Bool := containsSubL pat.data s.data

/-!  ## Data Validator (`validate_extracted_data`, main.py:474-507)  -/

/-- Truthiness of `re.match(r'^[a-zA-Z\s]+$', name)`: the whole string is
non-empty and made of ASCII letters and whitespace.  (Python `$` also
matches just before one trailing newline, but a newline is itself in `\s`,
so that tolerance adds no further strings here.) -/
def nameReMatch (s : String) : Bool :=
  !s.data.isEmpty && s.data.all (fun c => isAl c || pyWs c)

/-- Character class of the local part in the validator email regex,
`[a-zA-Z0-9._%+-]`. -/
def isLocalChar (c : Char) : Bool :=
  isAl c || isDig c || decide (cp c = 46 ∨ cp c = 95 ∨ cp c = 37 ∨ cp c = 43 ∨ cp c = 45)

/-- Character class of the domain in the validator email regex, `[a-zA-Z0-9.-]`. -/
def isDomChar (c : Char) : Bool :=
  isAl c || isDig c || decide (cp c = 46 ∨ cp c = 45)

/-- Complete-string match of `^[a-zA-Z0-9._%+-]+@[a-zA-Z0-9.-]+\.[a-zA-Z]{2,}$`:
a non-empty local part, `@`, a non-empty domain, a dot, and a final all-letter
segment of length at least 2.  Because the final segment must be alphabetic and
reach the end of the string, the dot before it is necessarily the last dot, so
the match is computed by splitting at the first `@` and the last `.`. -/
def emailStructL (l : List Char) : Bool :=
  match splitAtFirst '@' l with
  | none => false
  | some (loc, rest) =>
    !loc.isEmpty && loc.all isLocalChar &&
      (match splitAtLast '.' rest with
       | none => false
       | some (dom, tld) =>
         !dom.isEmpty && dom.all isDomChar && tld.all isAl && decide (2 ≤ tld.length))

/-- Truthiness of `re.match(email_pattern, email)` in the validator: the whole
string matches, where Python `$` also accepts a single trailing newline. -/
def emailReMatch (s : String) : Bool :=
  emailStructL s.data ||
    (decide (s.data.getLast? = some '\n') && emailStructL s.data.dropLast)

/-- Characters kept by `re.sub(r'[^\d+]', '', phone)` (ASCII digits and `+`). -/
def phoneKeep (c : Char) : Bool := isDig c || decide (cp c = 43)

/-- `re.sub(r'[^\d+]', '', phone)`. -/
def cleanPhoneL (l : List Char) : List Char := l.filter phoneKeep

/-- Length of `clean_phone.replace('+', '')`. -/
def digitLen (l : List Char) : Nat := (l.filter (fun c => !decide (cp c = 43))).length

/-- The validated `{name, email, phone}` dictionary. -/
structure Fields where
  name : String
  email : String
  phone : String
deriving DecidableEq, Repr

/-- Name rule of `validate_extracted_data`: skipped for falsy or `"Unknown"`
names; title-cased when the whole name matches `^[a-zA-Z\s]+$`; cleared to
`"Unknown"` otherwise. -/
def nameF (name : String) : String :=
  if name ≠ "" ∧ name ≠ "Unknown" then
    if nameReMatch name then pyTitle (pyStrip name) else "Unknown"
  else name

/-- Email rule of `validate_extracted_data`: skipped for falsy emails;
stripped and lower-cased on a regex match; cleared to `""` otherwise. -/
def emailF (email : String) : String :=
  if email ≠ "" then
    if emailReMatch email then pyLower (pyStrip email) else ""
  else email

/-- Phone rule of `validate_extracted_data`: skipped for falsy phones; kept as
the digits-and-plus normal form when it has 7 to 15 digits; cleared otherwise. -/
def phoneF (phone : String) : String :=
  if phone ≠ "" then
    let clean := cleanPhoneL phone.data
    if 7 ≤ digitLen clean ∧ digitLen clean ≤ 15 then String.mk clean else ""
  else phone

/-- `validate_extracted_data(name, email, phone)` (main.py:474-507 and
tasks/resume_tasks.py:81-106): builds the dictionary from the three inputs and
then rewrites each field by its own rule. -/
def validate_extracted_data (name email phone : String) : Fields :=
  ⟨nameF name, emailF email, phoneF phone⟩

/-!  ## Categorizer (`categorize_resume`, main.py:465-472 and
tasks/resume_tasks.py:108-115)  -/

/-- `categorize_resume(score)`: `selected` from 7.0 up, `considered` from 4.0
up, `rejected` below.  Scores are modelled as rationals. -/
def categorize_resume (score : ℚ) : String :=
  if score ≥ 7 then "selected"
  else if score ≥ 4 then "considered"
  else "rejected"

/-!  ## Relevance Scorer (`analyze_resume_with_gpt`, main.py:396-463;
`GPTService.analyze_resume_async`, services/gpt_service.py:12-79)  -/

/-- JSON values, the possible results of `json.loads` on the classifier reply. -/
inductive JValue where
  | jnull : JValue
  | jbool : Bool → JValue
  | jnum : ℚ → JValue
  | jstr : String → JValue
  | jarr : List JValue → JValue
  | jobj : List (String × JValue) → JValue
deriving BEq, Repr

/-- Outcome of the interaction with the classifier service: either the API
call (or anything before the parse) raised, or it returned text whose
`json.loads` result is `some` JSON value, `none` denoting `JSONDecodeError`. -/
inductive GPTCallResult where
  | failure : GPTCallResult
  | reply : Option JValue → GPTCallResult

/-- The dictionary returned by the scorer.  `score` is the result of
`float(...)`; the other three fields are whatever JSON values the reply
carried (the code forwards them unconverted). -/
structure AnalysisOut where
  score : ℚ
  explanation : JValue
  strengths : JValue
  weaknesses : JValue

/-- `dict.get(key, default)` on a parsed JSON object. -/
def jGet : List (String × JValue) → String → JValue → JValue
  | [], _, d => d
  | (k, v) :: rest, key, d => if k = key then v else jGet rest key d

/-- Model of Python `float(x)` on a JSON value: numbers convert, booleans
convert to 0 or 1, strings convert by the given partial numeric-string
reading, everything else raises (`none`). -/
def pyFloat (floatOfStr : String → Option ℚ) : JValue → Option ℚ
  | .jnum q => some q
  | .jbool b => some (if b then 1 else 0)
  | .jstr s => floatOfStr s
  | _ => none

/-- `analyze_resume_with_gpt` / `analyze_resume_async` after the outbound
call: a raised call gives the hard-failure default (score 0.0); a reply that
fails `json.loads` gives the parse-failure default (score 5.0); a parsed
object is read with `.get` and `float(...)`, and any exception on that path
(non-object JSON, unconvertible score) propagates to the outer handler,
giving the hard-failure default. -/
def analyze_resume_with_gpt (floatOfStr : String → Option ℚ)
    (call : GPTCallResult) : AnalysisOut :=
  match call with
  | .failure => ⟨0, .jstr "Error occurred during analysis", .jarr [], .jarr []⟩
  | .reply none => ⟨5, .jstr "Unable to parse detailed analysis", .jarr [], .jarr []⟩
  | .reply (some (.jobj fields)) =>
    match pyFloat floatOfStr (jGet fields "score" (.jnum 0)) with
    | some q =>
      ⟨q, jGet fields "explanation" (.jstr "No explanation provided"),
        jGet fields "strengths" (.jarr []), jGet fields "weaknesses" (.jarr [])⟩
    | none => ⟨0, .jstr "Error occurred during analysis", .jarr [], .jarr []⟩
  | .reply (some _) => ⟨0, .jstr "Error occurred during analysis", .jarr [], .jarr []⟩

/-!  ## Usage Ledger (`initialize_user_tokens`, `get_user_tokens`,
`use_tokens`, `calculate_tokens_needed`, main.py:125-234)

The `user_tokens` Firestore collection is modelled as an association list
keyed by user id, and the `token_usage` collection as a list of events.
The model covers the `FIREBASE_AVAILABLE` deployment (with the store absent
the Python functions are stubs that touch nothing).  -/

/-- One document of the `user_tokens` collection. -/
structure TokenRec where
  tokens : Int
  total_used : Int
deriving DecidableEq, Repr

/-- One document of the `token_usage` collection. -/
structure UsageEvent where
  user_id : String
  tokens_used : Int
  operation : String
deriving DecidableEq, Repr

/-- The ledger state: balances by user id plus the usage log. -/
structure TokenState where
  balances : List (String × TokenRec)
  usage : List UsageEvent
deriving DecidableEq, Repr

/-- Read a user's balance document (`document(user_id).get()`). -/
def lookupRec : List (String × TokenRec) → String → Option TokenRec
  | [], _ => none
  | (k, v) :: rest, uid => if k = uid then some v else lookupRec rest uid

/-- Write a user's balance document (`document(user_id).set/update`). -/
def setRec : List (String × TokenRec) → String → TokenRec → List (String × TokenRec)
  | [], uid, r => [(uid, r)]
  | (k, v) :: rest, uid, r =>
    if k = uid then (k, r) :: rest else (k, v) :: setRec rest uid r

/-- `initialize_user_tokens(user_id)` (main.py:125-149): create the balance
with 100 free tokens when no document exists; a no-op otherwise. -/
def initialize_user_tokens (st : TokenState) (uid : String) : TokenState :=
  match lookupRec st.balances uid with
  | some _ => st
  | none => { st with balances := (uid, ⟨100, 0⟩) :: st.balances }

/-- `get_user_tokens(user_id)` (main.py:151-186): return the stored document,
auto-initializing (and reporting the fresh 100-token record) when absent. -/
def get_user_tokens (st : TokenState) (uid : String) : TokenRec × TokenState :=
  match lookupRec st.balances uid with
  | some r => (r, st)
  | none => (⟨100, 0⟩, initialize_user_tokens st uid)

/-- `use_tokens(user_id, tokens_used, operation)` (main.py:188-229): read the
document (initializing it first when absent), fail without mutation when the
balance is short, otherwise decrement `tokens`, increment `total_used` and
append a usage event.  The unreachable missing-document read after
initialization maps to the exception branch, which returns `False`. -/
def use_tokens (st : TokenState) (uid : String) (tokens_used : Int)
    (operation : String) : Bool × TokenState :=
  let st1 :=
    match lookupRec st.balances uid with
    | some _ => st
    | none => initialize_user_tokens st uid
  match lookupRec st1.balances uid with
  | none => (false, st1)
  | some cur =>
    if cur.tokens < tokens_used then (false, st1)
    else
      (true,
        { balances := setRec st1.balances uid
            ⟨cur.tokens - tokens_used, cur.total_used + tokens_used⟩,
          usage := ⟨uid, tokens_used, operation⟩ :: st1.usage })

/-- `calculate_tokens_needed(resume_count)` (main.py:231-234): one token per resume. -/
def calculate_tokens_needed (resume_count : Nat) : Nat := resume_count

/-!  ## Structural name extraction (`extract_name_with_patterns`,
main.py:358-394; the same scan is inlined in
tasks/resume_tasks.py:49-64 `extract_name_from_text`)  -/

/-- The `skip_words` list of main.py:369. -/
def skip_words : List String :=
  ["resume", "cv", "curriculum", "vitae", "contact", "personal", "information",
    "profile", "objective"]

/-- The contact-label words of main.py:379. -/
def contact_words : List String :=
  ["phone", "email", "address", "linkedin", "github", "portfolio"]

/-- `' '.join(words)`. -/
def joinSpaceL : List String → String
  | [] => ""
  | [w] => w
  | w :: ws => w ++ " " ++ joinSpaceL ws

/-- `word[0].isupper() and word.isalpha()` for one token. -/
def wordIsNameToken (w : String) : Bool :=
  match w.data with
  | [] => false
  | c :: cs => isUp c && (c :: cs).all isAl

/-- One iteration of the first loop of `extract_name_with_patterns`:
strip the line; skip it when blank or when its lowering contains a
boilerplate keyword; accept it when it has 2 to 4 whitespace-separated
tokens, each alphabetic and starting upper-case, none of them a
contact-label word; the accepted value is the tokens joined by spaces. -/
def nameScanLine (line : String) : Option String :=
  let l := pyStrip line
  if l = "" then none
  else if skip_words.any (fun w => containsSub w (pyLower l)) then none
  else
    let words := pySplitWs l
    if 2 ≤ words.length ∧ words.length ≤ 4 then
      if words.all wordIsNameToken then
        if !(words.any (fun w => contact_words.contains (pyLower w))) then
          some (joinSpaceL words)
        else none
      else none
    else none

/-- One iteration of the second loop of `extract_name_with_patterns`
(main.py:383-392): on a stripped, lowered line containing a name label,
take the text after the first colon and accept 2 to 4 tokens, capitalized. -/
def labelScanLine (line : String) : Option String :=
  let l := pyLower (pyStrip line)
  if containsSub "name:" l || containsSub "full name:" l ||
      containsSub "candidate name:" l then
    match splitAtFirst ':' l.data with
    | some (_, after) =>
      let name_part := pyStrip (String.mk after)
      let words := pySplitWs name_part
      if 2 ≤ words.length ∧ words.length ≤ 4 then
        some (joinSpaceL (words.map pyCapitalize))
      else none
    | none => none
  else none

/-- `extract_name_with_patterns(text)` (main.py:358-394): scan the first 10
lines of `text.split('\n')` with `nameScanLine` (first match wins), then fall
back to the name-label scan over all lines, then to `"Unknown"`. -/
def extract_name_with_patterns (text : String) : String :=
  let lines := pySplitNl text
  match (lines.take 10).findSome? nameScanLine with
  | some n => n
  | none =>
    match lines.findSome? labelScanLine with
    | some n => n
    | none => "Unknown"

/-- Modelled from the claim wording of C9: the same per-line acceptance rule
applied to the first 10 NON-EMPTY lines of the text (the code instead takes
the first 10 raw lines and merely skips blank ones among them). -/
def specNameScanNonEmpty (text : String) : Option String :=
  (((pySplitNl text).filter (fun l => !(pyStrip l = ""))).take 10).findSome? nameScanLine

/-!  ## Batch Orchestrator (`process_single_resume`, main.py:828-968;
`process_resumes`, main.py:970-1100)

Per-document external effects are oracle fields of `DocRun`: the extracted
text, the three extraction results (email and phone extraction are pure
regex passes over the text, name extraction may consult the classifier), the
S3 upload outcome, the classifier scoring outcome, and whether some
exception escaped the document's pipeline body (`fatal`, with the exception
text `errMsg`).  S3/Firestore persistence failures are non-fatal and do not
alter the returned records, so they need no further state here.  -/

/-- The oracle inputs consumed while processing one uploaded document. -/
structure DocRun where
  filename : String
  text : String
  name : String
  email : String
  phone : String
  s3_url : Option String
  fatal : Bool
  errMsg : String
  gpt : GPTCallResult

/-- The per-candidate record built by `process_single_resume` (the fallback
record has no `content` key, hence `content : Option String`). -/
structure CandidateRec where
  id : String
  name : String
  email : String
  phone : String
  s3_url : Option String
  fileName : String
  score : ℚ
  category : String
  content : Option String
  explanation : JValue
  strengths : JValue
  weaknesses : JValue

/-- The `{success, data, category}` dictionary returned per document. -/
structure OutcomeR where
  success : Bool
  data : CandidateRec
  category : String

/-- `process_single_resume` (main.py:828-968): on any exception in the
pipeline body, the fallback rejected record; otherwise validate the
extracted fields, score via the classifier outcome, categorize, and build
the record. -/
def process_single_resume (floatOfStr : String → Option ℚ) (d : DocRun)
    (idx : Nat) : OutcomeR :=
  if d.fatal then
    ⟨false,
      ⟨"resume_" ++ toString idx, "Unknown", "", "", none, d.filename, 0,
        "rejected", none, .jstr ("Error processing resume: " ++ d.errMsg),
        .jarr [], .jarr []⟩,
      "rejected"⟩
  else
    let validated := validate_extracted_data d.name d.email d.phone
    let analysis := analyze_resume_with_gpt floatOfStr d.gpt
    let category := categorize_resume analysis.score
    ⟨true,
      ⟨"resume_" ++ toString idx, validated.name, validated.email,
        validated.phone, d.s3_url, d.filename, analysis.score, category,
        some d.text, analysis.explanation, analysis.strengths,
        analysis.weaknesses⟩,
      category⟩

/-- The `results` dictionary of `process_resumes`. -/
structure BatchResult where
  selected : List CandidateRec
  considered : List CandidateRec
  rejected : List CandidateRec

/-- One iteration of the aggregation loop (main.py:1061-1070): successful
outcomes are appended to their category's list, fallbacks to `rejected`.
(A successful outcome with a category outside the three keys would raise
`KeyError` in Python; `categorize_resume` never produces one.) -/
def addOutcome (acc : BatchResult) (r : OutcomeR) : BatchResult :=
  if r.success then
    if r.category = "selected" then { acc with selected := acc.selected ++ [r.data] }
    else if r.category = "considered" then
      { acc with considered := acc.considered ++ [r.data] }
    else if r.category = "rejected" then
      { acc with rejected := acc.rejected ++ [r.data] }
    else acc
  else { acc with rejected := acc.rejected ++ [r.data] }

/-- Batch-level preflight errors of `process_resumes`. -/
inductive ProcErr where
  | insufficientTokens : ProcErr
  | noJobDescription : ProcErr
deriving DecidableEq, Repr

/-- The successful return of `process_resumes`: the categorized results, the
`tokens_used` metadatum, and the ledger state after the post-run debit. -/
structure BatchReturn where
  result : BatchResult
  tokens_used : Nat
  state : TokenState

/-- `process_resumes` after the token preflight: reject a missing or empty
job description, otherwise process every document (each yields exactly one
outcome), aggregate by category, and finally debit the ledger when a user id
is present (a failed debit is only logged). -/
def processRest (floatOfStr : String → Option ℚ) (st : TokenState)
    (docs : List DocRun) (jd : Option String) (user_id : Option String) :
    Except (ProcErr × TokenState) BatchReturn :=
  match jd with
  | none => .error (.noJobDescription, st)
  | some j =>
    if j = "" then .error (.noJobDescription, st)
    else
      let outcomes := docs.enum.map (fun p => process_single_resume floatOfStr p.2 p.1)
      let res := outcomes.foldl addOutcome ⟨[], [], []⟩
      match user_id with
      | some uid =>
        let n := calculate_tokens_needed docs.length
        let pr := use_tokens st uid (n : Int) "resume_screening"
        .ok ⟨res, n, pr.2⟩
      | none => .ok ⟨res, 0, st⟩

/-- `process_resumes(resumes, job_description, user_id)` (main.py:970-1100):
when a user id is present, read the balance (auto-initializing) and fail
with the insufficient-tokens error before any document is touched when it
cannot cover one token per document; then run the batch. -/
def process_resumes (floatOfStr : String → Option ℚ) (st : TokenState)
    (docs : List DocRun) (job_description : Option String)
    (user_id : Option String) : Except (ProcErr × TokenState) BatchReturn :=
  match user_id with
  | some uid =>
    let needed := calculate_tokens_needed docs.length
    let pair := get_user_tokens st uid
    if pair.1.tokens < (needed : Int) then .error (.insufficientTokens, pair.2)
    else processRest floatOfStr pair.2 docs job_description (some uid)
  | none => processRest floatOfStr st docs job_description none

/-!  ## Theorems  -/

/-- C1: for every score s, `categorize_resume(s)` returns `"selected"` iff
s ≥ 7.0, `"considered"` iff 4.0 ≤ s < 7.0, and `"rejected"` iff s < 4.0;
as a Lean function it is pure and total, and each bucket includes its lower
bound. -/
theorem categorize_resume_threshold_law (s : ℚ) :
    (categorize_resume s = "selected" ↔ 7 ≤ s) ∧
    (categorize_resume s = "considered" ↔ 4 ≤ s ∧ s < 7) ∧
    (categorize_resume s = "rejected" ↔ s < 4) := by
  unfold categorize_resume
  split_ifs with h1 h2
  · rw [ge_iff_le] at h1
    refine ⟨⟨fun _ => h1, fun _ => rfl⟩, ⟨?_, ?_⟩, ⟨?_, ?_⟩⟩
    · intro hh; exact absurd hh (by decide)
    · intro hh; linarith [hh.2]
    · intro hh; exact absurd hh (by decide)
    · intro hh; linarith
  · rw [not_le] at h1
    rw [ge_iff_le] at h2
    refine ⟨⟨?_, ?_⟩, ⟨fun _ => ⟨h2, h1⟩, fun _ => rfl⟩, ⟨?_, ?_⟩⟩
    · intro hh; exact absurd hh (by decide)
    · intro hh; linarith
    · intro hh; exact absurd hh (by decide)
    · intro hh; linarith
  · rw [not_le] at h1 h2
    refine ⟨⟨?_, ?_⟩, ⟨?_, ?_⟩, ⟨fun _ => h2, fun _ => rfl⟩⟩
    · intro hh; exact absurd hh (by decide)
    · intro hh; linarith
    · intro hh; exact absurd hh (by decide)
    · intro hh; linarith [hh.1]

/-- C3: whatever the numeric-string conversion does, a failed call (or any
non-parse failure) yields exactly the score-0.0 error record, and a reply
that fails JSON parsing yields exactly the score-5.0 parse-fallback record,
with empty strengths and weaknesses in both. -/
theorem analyze_resume_failure_defaults (floatOfStr : String → Option ℚ) :
    analyze_resume_with_gpt floatOfStr .failure =
      ⟨0, .jstr "Error occurred during analysis", .jarr [], .jarr []⟩ ∧
    analyze_resume_with_gpt floatOfStr (.reply none) =
      ⟨5, .jstr "Unable to parse detailed analysis", .jarr [], .jarr []⟩ :=
  ⟨rfl, rfl⟩

/-- C10: the validator treats the three fields independently — the validated
name depends only on the input name, the validated email only on the input
email, and the validated phone only on the input phone. -/
theorem validate_extracted_data_fieldwise (n e p n2 e2 p2 : String) :
    (validate_extracted_data n e p).name = (validate_extracted_data n e2 p2).name ∧
    (validate_extracted_data n e p).email = (validate_extracted_data n2 e p2).email ∧
    (validate_extracted_data n e p).phone = (validate_extracted_data n2 e2 p).phone :=
  ⟨rfl, rfl, rfl⟩

/-- Reading back a freshly written balance document returns it. -/
theorem lookupRec_setRec (l : List (String × TokenRec)) (uid : String) (r : TokenRec) :
    lookupRec (setRec l uid r) uid = some r := by
  induction l with
  | nil => simp [setRec, lookupRec]
  | cons kv rest ih =>
    obtain ⟨k, v⟩ := kv
    by_cases hk : k = uid
    · simp [setRec, hk, lookupRec]
    · simp [setRec, hk, lookupRec, ih]

/-- C4: for an existing balance record, `use_tokens` returns `False` and
leaves the state untouched when the balance is below the debit amount;
otherwise it decrements `tokens` by the amount, increments `total_used` by
the amount and prepends a usage event; and a non-negative balance stays
non-negative. -/
theorem use_tokens_debit_spec (st : TokenState) (uid : String) (amount : Int)
    (op : String) (r : TokenRec) (h : lookupRec st.balances uid = some r) :
    (r.tokens < amount → use_tokens st uid amount op = (false, st)) ∧
    (amount ≤ r.tokens →
      use_tokens st uid amount op =
        (true, ⟨setRec st.balances uid ⟨r.tokens - amount, r.total_used + amount⟩,
          ⟨uid, amount, op⟩ :: st.usage⟩)) ∧
    (0 ≤ r.tokens → ∀ r2,
      lookupRec (use_tokens st uid amount op).2.balances uid = some r2 →
      0 ≤ r2.tokens) := by
  unfold use_tokens
  simp only [h]
  split_ifs with hlt
  · refine ⟨fun _ => rfl, fun hle => absurd hlt (not_lt.mpr hle), ?_⟩
    intro h0 r2 hr2
    simp only [h] at hr2
    obtain rfl : r = r2 := Option.some.inj hr2
    exact h0
  · refine ⟨fun hlt2 => absurd hlt2 hlt, fun _ => rfl, ?_⟩
    intro h0 r2 hr2
    simp only [lookupRec_setRec] at hr2
    obtain rfl : (⟨r.tokens - amount, r.total_used + amount⟩ : TokenRec) = r2 :=
      Option.some.inj hr2
    simp only [not_lt] at hlt
    simp only []
    omega

/-- Witness for C4: debiting 3 from a balance of 10 succeeds, leaving 7
with 3 recorded as used and one usage event. -/
theorem use_tokens_debit_spec_witness :
    use_tokens ⟨[("u", ⟨10, 0⟩)], []⟩ "u" 3 "resume_screening" =
      (true, ⟨[("u", ⟨7, 3⟩)], [⟨"u", 3, "resume_screening"⟩]⟩) := by
  have h2 := (use_tokens_debit_spec ⟨[("u", ⟨10, 0⟩)], []⟩ "u" 3 "resume_screening"
    ⟨10, 0⟩ rfl).2.1 (by decide)
  exact h2.trans (by decide)

/-- C5: with a user id present whose stored balance is below one token per
submitted document, the batch fails fast with the insufficient-tokens error
and the untouched ledger state — no document is processed and nothing is
consumed. -/
theorem process_resumes_insufficient_balance (fos : String → Option ℚ)
    (st : TokenState) (docs : List DocRun) (jd : Option String) (uid : String)
    (r : TokenRec) (h : lookupRec st.balances uid = some r)
    (hlt : r.tokens < (docs.length : Int)) :
    process_resumes fos st docs jd (some uid) = .error (.insufficientTokens, st) := by
  unfold process_resumes get_user_tokens calculate_tokens_needed
  simp only [h]
  rw [if_pos hlt]

/-- Witness for C5: balance 3 with a batch of 5 documents fails fast with the
ledger unchanged. -/
theorem process_resumes_insufficient_balance_witness :
    process_resumes (fun _ => none) ⟨[("u", ⟨3, 0⟩)], []⟩
      (List.replicate 5 ⟨"f", "", "", "", "", none, true, "", .failure⟩)
      none (some "u") = .error (.insufficientTokens, ⟨[("u", ⟨3, 0⟩)], []⟩) :=
  process_resumes_insufficient_balance (fun _ => none) ⟨[("u", ⟨3, 0⟩)], []⟩
    (List.replicate 5 ⟨"f", "", "", "", "", none, true, "", .failure⟩)
    none "u" ⟨3, 0⟩ rfl (by decide)

/-- `categorize_resume` always lands in one of the three buckets. -/
theorem categorize_resume_mem (s : ℚ) :
    categorize_resume s = "selected" ∨ categorize_resume s = "considered" ∨
      categorize_resume s = "rejected" := by
  unfold categorize_resume
  split_ifs <;> simp

/-- A successful per-document outcome carries one of the three categories. -/
theorem process_single_resume_wellCat (fos : String → Option ℚ) (d : DocRun) (idx : Nat) :
    (process_single_resume fos d idx).success = true →
      (process_single_resume fos d idx).category = "selected" ∨
      (process_single_resume fos d idx).category = "considered" ∨
      (process_single_resume fos d idx).category = "rejected" := by
  unfold process_single_resume
  by_cases hf : d.fatal = true
  · simp [hf]
  · simp only [Bool.not_eq_true] at hf
    simp only [hf, Bool.false_eq_true, if_false]
    intro _
    exact categorize_resume_mem _

/-- Appending one outcome to the aggregation grows the three-bucket total by
exactly one. -/
theorem addOutcome_len (acc : BatchResult) (r : OutcomeR)
    (h : r.success = true → r.category = "selected" ∨ r.category = "considered" ∨
      r.category = "rejected") :
    (addOutcome acc r).selected.length + (addOutcome acc r).considered.length +
        (addOutcome acc r).rejected.length =
      acc.selected.length + acc.considered.length + acc.rejected.length + 1 := by
  unfold addOutcome
  by_cases hs : r.success = true
  · rcases h hs with hc | hc | hc <;>
      simp [hs, hc, List.length_append] <;> omega
  · simp only [Bool.not_eq_true] at hs
    simp [hs, List.length_append]
    omega

/-- The aggregation loop adds exactly one record per outcome. -/
theorem foldl_addOutcome_len (rs : List OutcomeR) (acc : BatchResult)
    (h : ∀ r ∈ rs, r.success = true → r.category = "selected" ∨
      r.category = "considered" ∨ r.category = "rejected") :
    ((rs.foldl addOutcome acc).selected.length +
      (rs.foldl addOutcome acc).considered.length +
      (rs.foldl addOutcome acc).rejected.length) =
      (acc.selected.length + acc.considered.length + acc.rejected.length) + rs.length := by
  induction rs generalizing acc with
  | nil => simp
  | cons r rest ih =>
    simp only [List.foldl_cons, List.length_cons]
    rw [ih (addOutcome acc r) (fun x hx => h x (List.mem_cons_of_mem r hx)),
      addOutcome_len acc r (h r (List.mem_cons_self r rest))]
    omega

/-- A successful run of the post-preflight pipeline returns one record per
submitted document across the three categories. -/
theorem processRest_coverage (fos : String → Option ℚ) (st : TokenState)
    (docs : List DocRun) (jd : Option String) (uidOpt : Option String)
    (ret : BatchReturn) (h : processRest fos st docs jd uidOpt = .ok ret) :
    ret.result.selected.length + ret.result.considered.length +
      ret.result.rejected.length = docs.length := by
  unfold processRest at h
  cases jd with
  | none => cases h
  | some j =>
    dsimp only at h
    by_cases hj : j = ""
    · rw [if_pos hj] at h; cases h
    · rw [if_neg hj] at h
      have key : ∀ (res : BatchResult),
          res = (docs.enum.map (fun p => process_single_resume fos p.2 p.1)).foldl
              addOutcome ⟨[], [], []⟩ →
          res.selected.length + res.considered.length + res.rejected.length =
            docs.length := by
        intro res hres
        subst hres
        rw [foldl_addOutcome_len]
        · simp [List.enum_length]
        · intro r hr
          obtain ⟨p, hp, rfl⟩ := List.mem_map.mp hr
          exact process_single_resume_wellCat fos p.2 p.1
      cases uidOpt with
      | some u =>
        obtain rfl := (Except.ok.inj h).symm
        exact key _ rfl
      | none =>
        obtain rfl := (Except.ok.inj h).symm
        exact key _ rfl

/-- C2: whenever the batch run returns a result for N submitted documents,
the three category lists together hold exactly N candidate records — every
document contributes exactly one record, success or fallback. -/
theorem process_resumes_total_coverage (fos : String → Option ℚ) (st : TokenState)
    (docs : List DocRun) (jd : Option String) (uid : Option String)
    (ret : BatchReturn) (h : process_resumes fos st docs jd uid = .ok ret) :
    ret.result.selected.length + ret.result.considered.length +
      ret.result.rejected.length = docs.length := by
  unfold process_resumes at h
  cases uid with
  | none => exact processRest_coverage fos st docs jd none ret h
  | some u =>
    dsimp only at h
    by_cases hc : (get_user_tokens st u).1.tokens <
      ((calculate_tokens_needed docs.length : Nat) : Int)
    · rw [if_pos hc] at h; cases h
    · rw [if_neg hc] at h
      exact processRest_coverage fos (get_user_tokens st u).2 docs jd (some u) ret h

/-- Witness for C2: a one-document batch whose pipeline raises still returns
exactly one (fallback, rejected) record. -/
theorem process_resumes_total_coverage_witness :
    process_resumes (fun _ => none) ⟨[], []⟩
        [⟨"f", "t", "n", "e", "p", none, true, "boom", .failure⟩] (some "jd") none =
      .ok ⟨⟨[], [], [⟨"resume_0", "Unknown", "", "", none, "f", 0, "rejected", none,
          .jstr "Error processing resume: boom", .jarr [], .jarr []⟩]⟩, 0, ⟨[], []⟩⟩ ∧
    (⟨⟨[], [], [⟨"resume_0", "Unknown", "", "", none, "f", 0, "rejected", none,
          .jstr "Error processing resume: boom", .jarr [], .jarr []⟩]⟩, 0, ⟨[], []⟩⟩ :
        BatchReturn).result.selected.length +
      (⟨⟨[], [], [⟨"resume_0", "Unknown", "", "", none, "f", 0, "rejected", none,
          .jstr "Error processing resume: boom", .jarr [], .jarr []⟩]⟩, 0, ⟨[], []⟩⟩ :
        BatchReturn).result.considered.length +
      (⟨⟨[], [], [⟨"resume_0", "Unknown", "", "", none, "f", 0, "rejected", none,
          .jstr "Error processing resume: boom", .jarr [], .jarr []⟩]⟩, 0, ⟨[], []⟩⟩ :
        BatchReturn).result.rejected.length = 1 :=
  ⟨rfl,
    process_resumes_total_coverage (fun _ => none) ⟨[], []⟩
      [⟨"f", "t", "n", "e", "p", none, true, "boom", .failure⟩] (some "jd") none _ rfl⟩

/-- Counterexample to C6 as stated: `"John\tDoe"` does not consist of
alphabetic characters and spaces only (it contains a tab), yet the validator
does not clear it to `"Unknown"` — the regex class is `\s`, all whitespace,
not just the space character. -/
theorem validate_name_space_counterexample :
    ¬ (∀ c ∈ ("John\tDoe" : String).data, isAl c = true ∨ c = ' ') ∧
    (validate_extracted_data "John\tDoe" "" "").name ≠ "Unknown" := by
  constructor
  · decide
  · decide

/-- C6 (amended): a name made of alphabetic and whitespace characters only is
mapped to its stripped, title-cased form, and every other name is cleared to
`"Unknown"`. -/
theorem validate_name_rule (name email phone : String) :
    ((∀ c ∈ name.data, isAl c = true ∨ pyWs c = true) →
      (validate_extracted_data name email phone).name = pyTitle (pyStrip name)) ∧
    ((¬ ∀ c ∈ name.data, isAl c = true ∨ pyWs c = true) →
      (validate_extracted_data name email phone).name = "Unknown") := by
  constructor
  · intro hall
    show nameF name = _
    unfold nameF
    by_cases h0 : name = ""
    · subst h0
      simp
      decide
    · by_cases h1 : name = "Unknown"
      · subst h1
        simp only [ne_eq, not_false_eq_true, and_true, true_and]
        rw [if_neg (by simp)]
        decide
      · rw [if_pos ⟨h0, h1⟩, if_pos]
        unfold nameReMatch
        have hd : name.data ≠ [] := by
          intro hd
          apply h0
          obtain ⟨d⟩ := name
          simp only at hd
          subst hd
          rfl
        simp only [Bool.and_eq_true, List.all_eq_true, Bool.or_eq_true]
        constructor
        · simp [List.isEmpty_iff, hd]
        · intro c hc
          rcases hall c hc with h | h
          · exact Or.inl h
          · exact Or.inr h
  · intro hnall
    show nameF name = _
    unfold nameF
    have h0 : name ≠ "" := by
      intro h0
      apply hnall
      subst h0
      intro c hc
      exact absurd hc (List.not_mem_nil c)
    have h1 : name ≠ "Unknown" := by
      intro h1
      apply hnall
      subst h1
      decide
    rw [if_pos ⟨h0, h1⟩, if_neg]
    intro hm
    apply hnall
    unfold nameReMatch at hm
    simp only [Bool.and_eq_true, List.all_eq_true, Bool.or_eq_true] at hm
    exact hm.2

/-- Witness for the amended C6: a lower-cased alphabetic name is stripped and
title-cased. -/
theorem validate_name_rule_witness :
    (validate_extracted_data "john SMITH" "e" "p").name = "John Smith" := by
  have h := (validate_name_rule "john SMITH" "e" "p").1 (by decide)
  exact h.trans (by decide)

/-- Counterexample to C7 as stated: `"a@b.co\n"` does not fully match the
strict pattern (no complete-string match) and is non-empty, yet the validator
does not clear it — Python `$` accepts the trailing newline and the value is
kept as its stripped lowering. -/
theorem validate_email_newline_counterexample :
    emailStructL ("a@b.co\n" : String).data = false ∧
    ("a@b.co\n" : String) ≠ "" ∧
    (validate_extracted_data "" "a@b.co\n" "").email = "a@b.co" := by
  refine ⟨by decide, by decide, by decide⟩

/-- C7 (amended): an email accepted by the strict pattern under Python
`re.match` semantics (complete match, allowing one trailing newline) is
stripped and lower-cased; every other non-empty email is cleared to the empty
string; in particular the two inputs named by the claim behave as stated. -/
theorem validate_email_rule (name email phone : String) :
    (emailReMatch email = true →
      (validate_extracted_data name email phone).email = pyLower (pyStrip email)) ∧
    (emailReMatch email = false → email ≠ "" →
      (validate_extracted_data name email phone).email = "") ∧
    (validate_extracted_data name "A.B@Test.COM" phone).email = "a.b@test.com" ∧
    (validate_extracted_data name "not-an-email" phone).email = "" := by
  refine ⟨?_, ?_, rfl, rfl⟩
  · intro hm
    show emailF email = _
    unfold emailF
    by_cases h0 : email = ""
    · subst h0
      exact absurd hm (by decide)
    · rw [if_pos h0, if_pos hm]
  · intro hm h0
    show emailF email = _
    unfold emailF
    rw [if_pos h0, if_neg]
    simp [hm]

/-- Witness for the amended C7: a matching mixed-case email is lower-cased. -/
theorem validate_email_rule_witness :
    (validate_extracted_data "n" "X@Y.com" "p").email = "x@y.com" := by
  have h := (validate_email_rule "n" "X@Y.com" "p").1 (by decide)
  exact h.trans (by decide)

/-- Counterexample to C9 as stated: for a text whose first ten raw lines are
blank and whose eleventh line is a clean name, the first-10-non-empty-lines
scan of the claim accepts `"John Smith"`, but the code inspects only the
first 10 raw lines and returns `"Unknown"`. -/
theorem extract_name_nonempty_lines_counterexample :
    specNameScanNonEmpty "\n\n\n\n\n\n\n\n\n\nJohn Smith" = some "John Smith" ∧
    extract_name_with_patterns "\n\n\n\n\n\n\n\n\n\nJohn Smith" = "Unknown" :=
  ⟨rfl, rfl⟩

/-- C9 (amended): structural name extraction scans the first 10 raw lines
(blank ones among them are skipped but still count toward the 10), skipping
boilerplate-keyword lines, and returns the joined tokens of the first line of
2 to 4 capitalized alphabetic non-contact-label tokens; first match wins. -/
theorem extract_name_first_ten_lines (text n : String)
    (h : ((pySplitNl text).take 10).findSome? nameScanLine = some n) :
    extract_name_with_patterns text = n := by
  unfold extract_name_with_patterns
  simp only [h]

/-- Witness for the amended C9: a name on the first line is returned. -/
theorem extract_name_first_ten_lines_witness :
    extract_name_with_patterns "Jane Q Public\nEmail: jane@x.com" = "Jane Q Public" :=
  extract_name_first_ten_lines "Jane Q Public\nEmail: jane@x.com" "Jane Q Public" rfl

/-!  ### Idempotence of the validator (C8)  -/
theorem cp_ofNatAux (n : Nat) (h : n.isValidChar) : cp (Char.ofNatAux n h) = n := rfl

theorem pyLowerChar_cp_of_up (c : Char) (h : 65 ≤ cp c ∧ cp c ≤ 90) :
    cp (pyLowerChar c) = cp c + 32 := by
  unfold pyLowerChar
  rw [dif_pos h]
  exact cp_ofNatAux _ _

theorem pyLowerChar_eq_of_not_up (c : Char) (h : ¬(65 ≤ cp c ∧ cp c ≤ 90)) :
    pyLowerChar c = c := by
  unfold pyLowerChar
  rw [dif_neg h]

theorem pyUpperChar_cp_of_lo (c : Char) (h : 97 ≤ cp c ∧ cp c ≤ 122) :
    cp (pyUpperChar c) = cp c - 32 := by
  unfold pyUpperChar
  rw [dif_pos h]
  exact cp_ofNatAux _ _

theorem pyUpperChar_eq_of_not_lo (c : Char) (h : ¬(97 ≤ cp c ∧ cp c ≤ 122)) :
    pyUpperChar c = c := by
  unfold pyUpperChar
  rw [dif_neg h]

theorem isAl_iff (c : Char) :
    isAl c = true ↔ (65 ≤ cp c ∧ cp c ≤ 90) ∨ (97 ≤ cp c ∧ cp c ≤ 122) := by
  simp [isAl, isUp, isLo]

theorem pyWs_iff (c : Char) :
    pyWs c = true ↔
      cp c = 32 ∨ cp c = 9 ∨ cp c = 10 ∨ cp c = 13 ∨ cp c = 11 ∨ cp c = 12 := by
  simp [pyWs]

theorem bool_false_of_not_true {b : Bool} (h : ¬ b = true) : b = false := by
  cases b
  · rfl
  · exact absurd rfl h

theorem isAl_pyLowerChar (c : Char) : isAl (pyLowerChar c) = isAl c := by
  by_cases h : 65 ≤ cp c ∧ cp c ≤ 90
  · have h1 := pyLowerChar_cp_of_up c h
    rw [(isAl_iff c).mpr (Or.inl h), (isAl_iff _).mpr (Or.inr (by omega))]
  · rw [pyLowerChar_eq_of_not_up c h]

theorem isAl_pyUpperChar (c : Char) : isAl (pyUpperChar c) = isAl c := by
  by_cases h : 97 ≤ cp c ∧ cp c ≤ 122
  · have h1 := pyUpperChar_cp_of_lo c h
    rw [(isAl_iff c).mpr (Or.inr h), (isAl_iff _).mpr (Or.inl (by omega))]
  · rw [pyUpperChar_eq_of_not_lo c h]

theorem pyWs_pyLowerChar (c : Char) : pyWs (pyLowerChar c) = pyWs c := by
  by_cases h : 65 ≤ cp c ∧ cp c ≤ 90
  · have h1 := pyLowerChar_cp_of_up c h
    have hc : pyWs c = false := bool_false_of_not_true (by rw [pyWs_iff]; omega)
    have hd : pyWs (pyLowerChar c) = false := bool_false_of_not_true (by rw [pyWs_iff]; omega)
    rw [hc, hd]
  · rw [pyLowerChar_eq_of_not_up c h]

theorem pyWs_pyUpperChar (c : Char) : pyWs (pyUpperChar c) = pyWs c := by
  by_cases h : 97 ≤ cp c ∧ cp c ≤ 122
  · have h1 := pyUpperChar_cp_of_lo c h
    have hc : pyWs c = false := bool_false_of_not_true (by rw [pyWs_iff]; omega)
    have hd : pyWs (pyUpperChar c) = false := bool_false_of_not_true (by rw [pyWs_iff]; omega)
    rw [hc, hd]
  · rw [pyUpperChar_eq_of_not_lo c h]

theorem pyLowerChar_idem (c : Char) : pyLowerChar (pyLowerChar c) = pyLowerChar c := by
  by_cases h : 65 ≤ cp c ∧ cp c ≤ 90
  · have h1 := pyLowerChar_cp_of_up c h
    exact pyLowerChar_eq_of_not_up _ (by omega)
  · rw [pyLowerChar_eq_of_not_up c h, pyLowerChar_eq_of_not_up c h]

theorem pyUpperChar_idem (c : Char) : pyUpperChar (pyUpperChar c) = pyUpperChar c := by
  by_cases h : 97 ≤ cp c ∧ cp c ≤ 122
  · have h1 := pyUpperChar_cp_of_lo c h
    exact pyUpperChar_eq_of_not_lo _ (by omega)
  · rw [pyUpperChar_eq_of_not_lo c h, pyUpperChar_eq_of_not_lo c h]

theorem titleAux_cons (b : Bool) (c : Char) (cs : List Char) :
    titleAux b (c :: cs) =
      if isAl c then (if b then pyLowerChar c else pyUpperChar c) :: titleAux true cs
      else c :: titleAux false cs := rfl

theorem titleAux_cons_al (b : Bool) (c : Char) (cs : List Char) (h : isAl c = true) :
    titleAux b (c :: cs) =
      (if b then pyLowerChar c else pyUpperChar c) :: titleAux true cs := by
  rw [titleAux_cons, if_pos h]

theorem titleAux_cons_not (b : Bool) (c : Char) (cs : List Char) (h : isAl c = false) :
    titleAux b (c :: cs) = c :: titleAux false cs := by
  rw [titleAux_cons, if_neg (by rw [h]; exact Bool.false_ne_true)]

theorem titleAux_map_pyWs (b : Bool) (l : List Char) :
    (titleAux b l).map pyWs = l.map pyWs := by
  induction l generalizing b with
  | nil => rfl
  | cons c cs ih =>
    by_cases hA : isAl c = true
    · rw [titleAux_cons_al b c cs hA]
      cases b
      · simp only [if_neg, List.map_cons, pyWs_pyUpperChar, ih, Bool.false_eq_true,
          if_false]
      · simp only [List.map_cons, pyWs_pyLowerChar, ih, if_true]
    · rw [titleAux_cons_not b c cs (bool_false_of_not_true hA)]
      simp only [List.map_cons, ih]

theorem titleAux_idem (b : Bool) (l : List Char) :
    titleAux b (titleAux b l) = titleAux b l := by
  induction l generalizing b with
  | nil => rfl
  | cons c cs ih =>
    by_cases hA : isAl c = true
    · rw [titleAux_cons_al b c cs hA]
      cases b
      · simp only [Bool.false_eq_true, if_false]
        rw [titleAux_cons_al false (pyUpperChar c) (titleAux true cs)
          (by rw [isAl_pyUpperChar]; exact hA)]
        simp only [Bool.false_eq_true, if_false]
        rw [pyUpperChar_idem, ih]
      · simp only [if_true]
        rw [titleAux_cons_al true (pyLowerChar c) (titleAux true cs)
          (by rw [isAl_pyLowerChar]; exact hA)]
        simp only [if_true]
        rw [pyLowerChar_idem, ih]
    · have hA2 := bool_false_of_not_true hA
      rw [titleAux_cons_not b c cs hA2, titleAux_cons_not b c (titleAux false cs) hA2,
        ih]

theorem dropWhile_head_good (p : Char → Bool) (l : List Char) :
    ∀ c, (l.dropWhile p).head? = some c → p c = false := by
  induction l with
  | nil => intro c hc; cases hc
  | cons x xs ih =>
    intro c hc
    by_cases hx : p x = true
    · rw [List.dropWhile_cons_of_pos hx] at hc
      exact ih c hc
    · rw [List.dropWhile_cons_of_neg hx] at hc
      obtain rfl : x = c := by
        simpa using hc
      exact bool_false_of_not_true hx

theorem dropWhile_eq_self_of_head_good (p : Char → Bool) (l : List Char)
    (h : ∀ c, l.head? = some c → p c = false) : l.dropWhile p = l := by
  cases l with
  | nil => rfl
  | cons x xs =>
    have hx : p x = false := h x rfl
    rw [List.dropWhile_cons_of_neg (by rw [hx]; exact Bool.false_ne_true)]

theorem getLast?_dropWhile (p : Char → Bool) (l : List Char) (c : Char)
    (h : (l.dropWhile p).getLast? = some c) : l.getLast? = some c := by
  induction l with
  | nil => cases h
  | cons x xs ih =>
    by_cases hx : p x = true
    · rw [List.dropWhile_cons_of_pos hx] at h
      have hne : xs.dropWhile p ≠ [] := by
        intro he
        rw [he] at h
        cases h
      have hxs : xs ≠ [] := by
        intro he
        subst he
        exact hne rfl
      rw [List.getLast?_cons, ih h]
      rfl
    · rw [List.dropWhile_cons_of_neg hx] at h
      exact h

theorem strip_head_good (l : List Char) :
    ∀ c, (pyStripL l).head? = some c → pyWs c = false := by
  intro c hc
  unfold pyStripL at hc
  rw [List.head?_reverse] at hc
  have h2 := getLast?_dropWhile pyWs _ c hc
  rw [List.getLast?_eq_head?_reverse, List.reverse_reverse] at h2
  exact dropWhile_head_good pyWs l c h2

theorem strip_revHead_good (l : List Char) :
    ∀ c, (pyStripL l).reverse.head? = some c → pyWs c = false := by
  intro c hc
  unfold pyStripL at hc
  rw [List.reverse_reverse] at hc
  exact dropWhile_head_good pyWs _ c hc

theorem strip_eq_self_of_good (l : List Char)
    (h1 : ∀ c, l.head? = some c → pyWs c = false)
    (h2 : ∀ c, l.reverse.head? = some c → pyWs c = false) : pyStripL l = l := by
  unfold pyStripL
  rw [dropWhile_eq_self_of_head_good pyWs l h1,
    dropWhile_eq_self_of_head_good pyWs l.reverse h2, List.reverse_reverse]

theorem mem_of_mem_strip (l : List Char) (c : Char) (h : c ∈ pyStripL l) : c ∈ l := by
  unfold pyStripL at h
  rw [List.mem_reverse] at h
  have h2 := (List.dropWhile_sublist pyWs).subset h
  rw [List.mem_reverse] at h2
  exact (List.dropWhile_sublist pyWs).subset h2

theorem mem_titleAux (b : Bool) (l : List Char) (x : Char) (h : x ∈ titleAux b l) :
    ∃ c ∈ l, x = pyLowerChar c ∨ x = pyUpperChar c ∨ x = c := by
  induction l generalizing b with
  | nil => cases h
  | cons c cs ih =>
    by_cases hA : isAl c = true
    · rw [titleAux_cons_al b c cs hA] at h
      rcases List.mem_cons.mp h with h | h
      · cases b
        · exact ⟨c, List.mem_cons_self c cs, by simp at h; exact Or.inr (Or.inl h)⟩
        · exact ⟨c, List.mem_cons_self c cs, by simp at h; exact Or.inl h⟩
      · obtain ⟨d, hd, hx⟩ := ih true h
        exact ⟨d, List.mem_cons_of_mem c hd, hx⟩
    · rw [titleAux_cons_not b c cs (bool_false_of_not_true hA)] at h
      rcases List.mem_cons.mp h with h | h
      · exact ⟨c, List.mem_cons_self c cs, Or.inr (Or.inr h)⟩
      · obtain ⟨d, hd, hx⟩ := ih false h
        exact ⟨d, List.mem_cons_of_mem c hd, hx⟩

theorem head_good_of_map_pyWs_eq (x y : List Char) (hmap : x.map pyWs = y.map pyWs)
    (hy : ∀ c, y.head? = some c → pyWs c = false) :
    ∀ c, x.head? = some c → pyWs c = false := by
  intro c hc
  have h1 : (x.map pyWs).head? = some (pyWs c) := by
    rw [List.head?_map, hc]
    rfl
  rw [hmap, List.head?_map] at h1
  cases hy2 : y.head? with
  | none => rw [hy2] at h1; cases h1
  | some d =>
    rw [hy2] at h1
    have hdc : pyWs d = pyWs c := by simpa using h1
    exact hdc ▸ hy d hy2

theorem title_strip_strip (l : List Char) :
    pyStripL (titleAux false (pyStripL l)) = titleAux false (pyStripL l) := by
  apply strip_eq_self_of_good
  · exact head_good_of_map_pyWs_eq _ _ (titleAux_map_pyWs false (pyStripL l))
      (strip_head_good l)
  · apply head_good_of_map_pyWs_eq ((titleAux false (pyStripL l)).reverse)
      ((pyStripL l).reverse)
    · rw [List.map_reverse, List.map_reverse, titleAux_map_pyWs]
    · exact strip_revHead_good l

theorem pyTitle_pyStrip_stable (n : String) :
    pyTitle (pyStrip (pyTitle (pyStrip n))) = pyTitle (pyStrip n) := by
  show String.mk (titleAux false (pyStripL (titleAux false (pyStripL n.data)))) =
    String.mk (titleAux false (pyStripL n.data))
  rw [title_strip_strip n.data, titleAux_idem false (pyStripL n.data)]

theorem nameReMatch_chars (n : String) (hm : nameReMatch n = true) :
    ∀ c ∈ n.data, (isAl c || pyWs c) = true := by
  unfold nameReMatch at hm
  simp only [Bool.and_eq_true, List.all_eq_true] at hm
  exact hm.2

theorem title_strip_chars_good (n : String) (hm : nameReMatch n = true) :
    ∀ x ∈ (pyTitle (pyStrip n)).data, (isAl x || pyWs x) = true := by
  intro x hx
  have hx2 : x ∈ titleAux false (pyStripL n.data) := hx
  obtain ⟨c, hc, hcase⟩ := mem_titleAux false _ x hx2
  have hcn : c ∈ n.data := mem_of_mem_strip _ _ hc
  have hgood := nameReMatch_chars n hm c hcn
  rcases hcase with rfl | rfl | rfl
  · rw [isAl_pyLowerChar, pyWs_pyLowerChar]
    exact hgood
  · rw [isAl_pyUpperChar, pyWs_pyUpperChar]
    exact hgood
  · exact hgood

theorem nameReMatch_title_strip (n : String) (hm : nameReMatch n = true)
    (hne : pyTitle (pyStrip n) ≠ "") : nameReMatch (pyTitle (pyStrip n)) = true := by
  unfold nameReMatch
  simp only [Bool.and_eq_true, List.all_eq_true]
  constructor
  · have hd : (pyTitle (pyStrip n)).data ≠ [] := by
      intro hl
      apply hne
      have he : pyTitle (pyStrip n) = String.mk (pyTitle (pyStrip n)).data := rfl
      rw [he, hl]
    simp [List.isEmpty_iff, hd]
  · exact title_strip_chars_good n hm

theorem nameF_idem (n : String) : nameF (nameF n) = nameF n := by
  by_cases hc : n ≠ "" ∧ n ≠ "Unknown"
  · by_cases hm : nameReMatch n = true
    · have hv : nameF n = pyTitle (pyStrip n) := by
        unfold nameF
        rw [if_pos hc, if_pos hm]
      rw [hv]
      by_cases hv0 : pyTitle (pyStrip n) = ""
      · rw [hv0]
        decide
      · by_cases hv1 : pyTitle (pyStrip n) = "Unknown"
        · rw [hv1]
          decide
        · unfold nameF
          rw [if_pos ⟨hv0, hv1⟩, if_pos (nameReMatch_title_strip n hm hv0)]
          exact pyTitle_pyStrip_stable n
    · have hv : nameF n = "Unknown" := by
        unfold nameF
        rw [if_pos hc, if_neg hm]
      rw [hv]
      decide
  · have hv : nameF n = n := by
      unfold nameF
      rw [if_neg hc]
    rw [hv, hv]

theorem splitAtFirst_cons (t c : Char) (cs : List Char) :
    splitAtFirst t (c :: cs) =
      if c = t then some ([], cs)
      else
        match splitAtFirst t cs with
        | none => none
        | some (a, b) => some (c :: a, b) := rfl

theorem splitAtFirst_sound (t : Char) (l a b : List Char)
    (h : splitAtFirst t l = some (a, b)) : l = a ++ t :: b := by
  induction l generalizing a with
  | nil => cases h
  | cons c cs ih =>
    rw [splitAtFirst_cons] at h
    by_cases hc : c = t
    · rw [if_pos hc] at h
      obtain ⟨rfl, rfl⟩ : ([] : List Char) = a ∧ cs = b := by
        have := Option.some.inj h
        exact ⟨congrArg Prod.fst this, congrArg Prod.snd this⟩
      rw [hc]
      rfl
    · rw [if_neg hc] at h
      cases hs : splitAtFirst t cs with
      | none => rw [hs] at h; cases h
      | some p =>
        obtain ⟨a2, b2⟩ := p
        rw [hs] at h
        obtain ⟨rfl, rfl⟩ : c :: a2 = a ∧ b2 = b := by
          have := Option.some.inj h
          exact ⟨congrArg Prod.fst this, congrArg Prod.snd this⟩
        rw [ih a2 hs]
        rfl

theorem splitAtFirst_complete (t : Char) (a b : List Char) (ha : t ∉ a) :
    splitAtFirst t (a ++ t :: b) = some (a, b) := by
  induction a with
  | nil => simp [splitAtFirst_cons]
  | cons x xs ih =>
    have hx : x ≠ t := fun he => ha (he ▸ List.mem_cons_self x xs)
    rw [List.cons_append, splitAtFirst_cons, if_neg hx,
      ih (fun hm => ha (List.mem_cons_of_mem x hm))]

theorem splitAtLast_sound (t : Char) (l a b : List Char)
    (h : splitAtLast t l = some (a, b)) : l = a ++ t :: b := by
  unfold splitAtLast at h
  cases hs : splitAtFirst t l.reverse with
  | none => rw [hs] at h; cases h
  | some p =>
    obtain ⟨x, y⟩ := p
    rw [hs] at h
    obtain ⟨rfl, rfl⟩ : y.reverse = a ∧ x.reverse = b := by
      have := Option.some.inj h
      exact ⟨congrArg Prod.fst this, congrArg Prod.snd this⟩
    have h2 := splitAtFirst_sound t l.reverse x y hs
    have h3 : l = (x ++ t :: y).reverse := by rw [← h2, List.reverse_reverse]
    rw [h3]
    simp

theorem splitAtLast_complete (t : Char) (a b : List Char) (hb : t ∉ b) :
    splitAtLast t (a ++ t :: b) = some (a, b) := by
  unfold splitAtLast
  have hrev : (a ++ t :: b).reverse = b.reverse ++ t :: a.reverse := by simp
  rw [hrev, splitAtFirst_complete t b.reverse a.reverse
    (fun hm => hb (List.mem_reverse.mp hm))]
  simp

theorem isLocalChar_iff (c : Char) :
    isLocalChar c = true ↔
      (65 ≤ cp c ∧ cp c ≤ 90) ∨ (97 ≤ cp c ∧ cp c ≤ 122) ∨ (48 ≤ cp c ∧ cp c ≤ 57) ∨
        cp c = 46 ∨ cp c = 95 ∨ cp c = 37 ∨ cp c = 43 ∨ cp c = 45 := by
  simp [isLocalChar, isAl, isUp, isLo, isDig]
  tauto

theorem isDomChar_iff (c : Char) :
    isDomChar c = true ↔
      (65 ≤ cp c ∧ cp c ≤ 90) ∨ (97 ≤ cp c ∧ cp c ≤ 122) ∨ (48 ≤ cp c ∧ cp c ≤ 57) ∨
        cp c = 46 ∨ cp c = 45 := by
  simp [isDomChar, isAl, isUp, isLo, isDig]
  tauto

theorem isLocalChar_not_ws (c : Char) (h : isLocalChar c = true) : pyWs c = false := by
  apply bool_false_of_not_true
  intro hw
  rw [isLocalChar_iff] at h
  rw [pyWs_iff] at hw
  omega

theorem isDomChar_not_ws (c : Char) (h : isDomChar c = true) : pyWs c = false := by
  apply bool_false_of_not_true
  intro hw
  rw [isDomChar_iff] at h
  rw [pyWs_iff] at hw
  omega

theorem isAl_not_ws (c : Char) (h : isAl c = true) : pyWs c = false := by
  apply bool_false_of_not_true
  intro hw
  rw [isAl_iff] at h
  rw [pyWs_iff] at hw
  omega

theorem isLocalChar_pyLowerChar (c : Char) (h : isLocalChar c = true) :
    isLocalChar (pyLowerChar c) = true := by
  by_cases hu : 65 ≤ cp c ∧ cp c ≤ 90
  · have h1 := pyLowerChar_cp_of_up c hu
    rw [isLocalChar_iff]
    omega
  · rw [pyLowerChar_eq_of_not_up c hu]
    exact h

theorem isDomChar_pyLowerChar (c : Char) (h : isDomChar c = true) :
    isDomChar (pyLowerChar c) = true := by
  by_cases hu : 65 ≤ cp c ∧ cp c ≤ 90
  · have h1 := pyLowerChar_cp_of_up c hu
    rw [isDomChar_iff]
    omega
  · rw [pyLowerChar_eq_of_not_up c hu]
    exact h

theorem emailStruct_elim (l : List Char) (h : emailStructL l = true) :
    ∃ loc dom tld, l = loc ++ '@' :: (dom ++ '.' :: tld) ∧
      loc ≠ [] ∧ loc.all isLocalChar = true ∧ dom ≠ [] ∧ dom.all isDomChar = true ∧
      tld.all isAl = true ∧ 2 ≤ tld.length := by
  unfold emailStructL at h
  cases hs : splitAtFirst '@' l with
  | none => rw [hs] at h; cases h
  | some p =>
    obtain ⟨loc, rest⟩ := p
    rw [hs] at h
    dsimp only at h
    cases hs2 : splitAtLast '.' rest with
    | none => rw [hs2] at h; simp at h
    | some q =>
      obtain ⟨dom, tld⟩ := q
      rw [hs2] at h
      simp only [Bool.and_eq_true, Bool.not_eq_true', List.isEmpty_eq_false,
        decide_eq_true_eq] at h
      obtain ⟨⟨hloc1, hloc2⟩, ⟨⟨hdom1, hdom2⟩, htld1⟩, htld2⟩ := h
      refine ⟨loc, dom, tld, ?_, hloc1, hloc2, hdom1, hdom2, htld1, htld2⟩
      rw [splitAtFirst_sound '@' l loc rest hs, splitAtLast_sound '.' rest dom tld hs2]

theorem emailStruct_intro (loc dom tld : List Char) (h1 : loc ≠ [])
    (h2 : loc.all isLocalChar = true) (h3 : dom ≠ []) (h4 : dom.all isDomChar = true)
    (h5 : tld.all isAl = true) (h6 : 2 ≤ tld.length) :
    emailStructL (loc ++ '@' :: (dom ++ '.' :: tld)) = true := by
  have hnoat : '@' ∉ loc := by
    intro hm
    have hl := List.all_eq_true.mp h2 _ hm
    exact absurd hl (by decide)
  have hnodot : '.' ∉ tld := by
    intro hm
    have hl := List.all_eq_true.mp h5 _ hm
    exact absurd hl (by decide)
  unfold emailStructL
  rw [splitAtFirst_complete '@' loc _ hnoat]
  dsimp only
  rw [splitAtLast_complete '.' dom tld hnodot]
  dsimp only
  simp only [Bool.and_eq_true, Bool.not_eq_true', List.isEmpty_eq_false,
    decide_eq_true_eq]
  exact ⟨⟨h1, h2⟩, ⟨⟨h3, h4⟩, h5⟩, h6⟩

theorem emailStruct_no_ws (l : List Char) (h : emailStructL l = true) :
    ∀ c ∈ l, pyWs c = false := by
  obtain ⟨loc, dom, tld, rfl, _, hloc, _, hdom, htld, _⟩ := emailStruct_elim l h
  intro c hc
  rcases List.mem_append.mp hc with hc | hc
  · exact isLocalChar_not_ws c (List.all_eq_true.mp hloc _ hc)
  · rcases List.mem_cons.mp hc with rfl | hc
    · decide
    · rcases List.mem_append.mp hc with hc | hc
      · exact isDomChar_not_ws c (List.all_eq_true.mp hdom _ hc)
      · rcases List.mem_cons.mp hc with rfl | hc
        · decide
        · exact isAl_not_ws c (List.all_eq_true.mp htld _ hc)

theorem emailStruct_ne_nil (l : List Char) (h : emailStructL l = true) : l ≠ [] := by
  obtain ⟨loc, dom, tld, rfl, _, _, _, _, _, _⟩ := emailStruct_elim l h
  intro he
  rcases List.append_eq_nil.mp he with ⟨_, h2⟩
  cases h2

theorem emailStruct_lower (l : List Char) (h : emailStructL l = true) :
    emailStructL (l.map pyLowerChar) = true := by
  obtain ⟨loc, dom, tld, rfl, h1, h2, h3, h4, h5, h6⟩ := emailStruct_elim l h
  have hmap : (loc ++ '@' :: (dom ++ '.' :: tld)).map pyLowerChar =
      loc.map pyLowerChar ++ '@' :: (dom.map pyLowerChar ++ '.' :: tld.map pyLowerChar) := by
    simp only [List.map_append, List.map_cons]
    rw [show pyLowerChar '@' = '@' by decide, show pyLowerChar '.' = '.' by decide]
  rw [hmap]
  apply emailStruct_intro
  · simp only [ne_eq, List.map_eq_nil_iff]
    exact h1
  · rw [List.all_eq_true]
    intro c hc
    obtain ⟨d, hd, rfl⟩ := List.mem_map.mp hc
    exact isLocalChar_pyLowerChar d (List.all_eq_true.mp h2 _ hd)
  · simp only [ne_eq, List.map_eq_nil_iff]
    exact h3
  · rw [List.all_eq_true]
    intro c hc
    obtain ⟨d, hd, rfl⟩ := List.mem_map.mp hc
    exact isDomChar_pyLowerChar d (List.all_eq_true.mp h4 _ hd)
  · rw [List.all_eq_true]
    intro c hc
    obtain ⟨d, hd, rfl⟩ := List.mem_map.mp hc
    rw [isAl_pyLowerChar]
    exact List.all_eq_true.mp h5 _ hd
  · rw [List.length_map]
    exact h6

theorem strip_eq_self_of_all_not_ws (l : List Char) (h : ∀ c ∈ l, pyWs c = false) :
    pyStripL l = l := by
  apply strip_eq_self_of_good
  · intro c hc
    exact h c (List.mem_of_mem_head? hc)
  · intro c hc
    exact h c (List.mem_reverse.mp (List.mem_of_mem_head? hc))

theorem strip_append_nl (m : List Char) (hne : m ≠ [])
    (h : ∀ c ∈ m, pyWs c = false) : pyStripL (m ++ ['\n']) = m := by
  unfold pyStripL
  have h1 : (m ++ ['\n']).dropWhile pyWs = m ++ ['\n'] := by
    apply dropWhile_eq_self_of_head_good
    intro c hc
    cases m with
    | nil => exact absurd rfl hne
    | cons x xs =>
      rw [List.cons_append] at hc
      obtain rfl : x = c := by simpa using hc
      exact h x (List.mem_cons_self x xs)
  rw [h1, List.reverse_append, List.reverse_singleton, List.singleton_append,
    List.dropWhile_cons_of_pos (by decide),
    dropWhile_eq_self_of_head_good pyWs m.reverse
      (fun c hc => h c (List.mem_reverse.mp (List.mem_of_mem_head? hc))),
    List.reverse_reverse]

theorem emailReMatch_strip_struct (e : String) (hm : emailReMatch e = true) :
    emailStructL (pyStripL e.data) = true := by
  unfold emailReMatch at hm
  simp only [Bool.or_eq_true, Bool.and_eq_true, decide_eq_true_eq] at hm
  rcases hm with h | ⟨hlast, h⟩
  · rw [strip_eq_self_of_all_not_ws _ (emailStruct_no_ws _ h)]
    exact h
  · have hdec : e.data.dropLast ++ ['\n'] = e.data :=
      List.dropLast_append_getLast? '\n' hlast
    rw [← hdec, strip_append_nl _ (emailStruct_ne_nil _ h) (emailStruct_no_ws _ h)]
    exact h

theorem map_pyLowerChar_idem (l : List Char) :
    (l.map pyLowerChar).map pyLowerChar = l.map pyLowerChar := by
  rw [List.map_map]
  exact List.map_congr_left (fun c _ => pyLowerChar_idem c)

theorem emailF_idem (e : String) : emailF (emailF e) = emailF e := by
  by_cases h0 : e = ""
  · subst h0
    rfl
  · by_cases hm : emailReMatch e = true
    · have hv : emailF e = pyLower (pyStrip e) := by
        unfold emailF
        rw [if_pos h0, if_pos hm]
      rw [hv]
      have hvdata : (pyLower (pyStrip e)).data = (pyStripL e.data).map pyLowerChar := rfl
      have hstruct : emailStructL (pyStripL e.data) = true :=
        emailReMatch_strip_struct e hm
      have hvstruct : emailStructL (pyLower (pyStrip e)).data = true := by
        rw [hvdata]
        exact emailStruct_lower _ hstruct
      have hvne : pyLower (pyStrip e) ≠ "" := by
        intro hx
        have hdn : (pyLower (pyStrip e)).data = [] := by
          rw [hx]
        exact emailStruct_ne_nil _ hvstruct hdn
      have hvmatch : emailReMatch (pyLower (pyStrip e)) = true := by
        unfold emailReMatch
        rw [hvstruct]
        rfl
      unfold emailF
      rw [if_pos hvne, if_pos hvmatch]
      have hnws : ∀ c ∈ (pyLower (pyStrip e)).data, pyWs c = false :=
        emailStruct_no_ws _ hvstruct
      show String.mk ((pyStripL (pyLower (pyStrip e)).data).map pyLowerChar) = _
      rw [strip_eq_self_of_all_not_ws _ hnws, hvdata, map_pyLowerChar_idem]
      rfl
    · have hv : emailF e = "" := by
        unfold emailF
        rw [if_pos h0, if_neg (by simp [hm])]
      rw [hv]
      rfl

theorem phoneF_pos (p : String) (h0 : p ≠ "")
    (hr : 7 ≤ digitLen (cleanPhoneL p.data) ∧ digitLen (cleanPhoneL p.data) ≤ 15) :
    phoneF p = String.mk (cleanPhoneL p.data) := by
  unfold phoneF
  rw [if_pos h0]
  dsimp only
  rw [if_pos hr]

theorem phoneF_neg (p : String) (h0 : p ≠ "")
    (hr : ¬(7 ≤ digitLen (cleanPhoneL p.data) ∧ digitLen (cleanPhoneL p.data) ≤ 15)) :
    phoneF p = "" := by
  unfold phoneF
  rw [if_pos h0]
  dsimp only
  rw [if_neg hr]

theorem phoneF_idem (p : String) : phoneF (phoneF p) = phoneF p := by
  by_cases h0 : p = ""
  · subst h0
    rfl
  · by_cases hr : 7 ≤ digitLen (cleanPhoneL p.data) ∧ digitLen (cleanPhoneL p.data) ≤ 15
    · have hv := phoneF_pos p h0 hr
      rw [hv]
      have hne : String.mk (cleanPhoneL p.data) ≠ "" := by
        intro hx
        have hd : cleanPhoneL p.data = [] := congrArg String.data hx
        rw [hd] at hr
        exact absurd hr.1 (by decide)
      have hclean2 : cleanPhoneL (String.mk (cleanPhoneL p.data)).data =
          cleanPhoneL p.data := by
        apply List.filter_eq_self.mpr
        intro c hc
        exact (List.mem_filter.mp hc).2
      rw [phoneF_pos _ hne (by rw [hclean2]; exact hr), hclean2]
    · rw [phoneF_neg p h0 hr]
      rfl

/-- C8: the validator is idempotent — validating an already-validated field
set changes nothing, so already-clean fields pass through unchanged. -/
theorem validate_extracted_data_idempotent (n e p : String) :
    validate_extracted_data (validate_extracted_data n e p).name
      (validate_extracted_data n e p).email (validate_extracted_data n e p).phone =
      validate_extracted_data n e p := by
  show (⟨nameF (nameF n), emailF (emailF e), phoneF (phoneF p)⟩ : Fields) =
    ⟨nameF n, emailF e, phoneF p⟩
  rw [nameF_idem, emailF_idem, phoneF_idem]
